import Mathlib

/-!
Verification of the droid-import compatibility engine against its
specification.  The definitions below are a shallow embedding of the
TypeScript sources (src/analyzer.ts, src/fixer-droid.ts (normalizeText),
src/converters/command.ts, src/converters/agent.ts).  Text is modelled as
`String` (in Lean 4.14 a wrapper around `List Char`), JavaScript regular
expressions are modelled by explicit character scans that reproduce the
engine's backtracking behaviour on the concrete patterns used, and
JavaScript `[...new Set(xs)]` deduplication is modelled by `jsDedup`.
-/

/-! ## JavaScript character classes (ECMA-262, as used by the source's regexes) -/

/-- JS `\w`: `[A-Za-z0-9_]`. -/
def jsWordChar (c : Char) : Bool := c.isAlphanum || c == '_'

/-- JS line terminators (`\n`, `\r`, U+2028, U+2029): what `.` never matches
and what `^`/`$` with the `m` flag anchor around. -/
def jsLineTerm (c : Char) : Bool :=
  c == '\n' || c == '\r' || c.val == 0x2028 || c.val == 0x2029

/-- JS `\s`: WhiteSpace plus LineTerminator code points. -/
def jsWs (c : Char) : Bool :=
  c == ' ' || c == '\t' || c == '\n' || c == '\r' || c.val == 0x0b || c.val == 0x0c ||
  c.val == 0xa0 || c.val == 0x1680 || (0x2000 ≤ c.val && c.val ≤ 0x200a) ||
  c.val == 0x2028 || c.val == 0x2029 || c.val == 0x202f || c.val == 0x205f ||
  c.val == 0x3000 || c.val == 0xfeff

/-- Case folding for the `i` flag on the ASCII-only patterns of the source
(without the `u` flag, a non-ASCII character never canonicalizes onto an
ASCII one, so ASCII lowering is exact here). -/
def jsLower (c : Char) : Char := c.toLower

/-! ## Small list utilities shared by the embedding -/

/-- JS `[...new Set(xs)]`: first occurrence of each element, in order. -/
def jsDedupFrom (acc : List String) : List String → List String
  | [] => acc
  | x :: xs => jsDedupFrom (if acc.contains x then acc else acc ++ [x]) xs

/-- JS `[...new Set(xs)]` from an empty accumulator. -/
def jsDedup (xs : List String) : List String := jsDedupFrom [] xs

/-- `(l.map f).join`, defined directly so its append law is immediate. -/
def joinMap (f : α → List β) : List α → List β
  | [] => []
  | x :: xs => f x ++ joinMap f xs

/-- Split a character list at commas (JS `"a,b".split(",")`). -/
def splitCommas : List Char → List (List Char)
  | [] => [[]]
  | c :: cs =>
    if c = ',' then [] :: splitCommas cs
    else match splitCommas cs with
      | [] => [[c]]
      | p :: ps => (c :: p) :: ps

/-- Case-sensitive literal prefix test. -/
def startsWithList : List Char → List Char → Bool
  | [], _ => true
  | _ :: _, [] => false
  | p :: ps, c :: cs => c == p && startsWithList ps cs

/-- Case-insensitive literal prefix test; `pat` is given lowercased. -/
def startsWithCI : List Char → List Char → Bool
  | [], _ => true
  | _ :: _, [] => false
  | p :: ps, c :: cs => jsLower c == p && startsWithCI ps cs

/-- JS `String.prototype.toLowerCase` on the ASCII names compared here. -/
def strToLower (s : String) : String := ⟨s.data.map Char.toLower⟩

/-- JS `String.prototype.trim` (drops JS whitespace at both ends). -/
def jsTrimList (l : List Char) : List Char :=
  ((l.dropWhile jsWs).reverse.dropWhile jsWs).reverse

def jsTrim (s : String) : String := ⟨jsTrimList s.data⟩

/-! ## src/analyzer.ts — static catalogs -/

/-- `FACTORY_TOOLS` (analyzer.ts:7). -/
def FACTORY_TOOLS : List String :=
  ["Read", "LS", "Grep", "Glob",
   "Create", "Edit", "ApplyPatch", "MultiEdit",
   "Execute",
   "WebSearch", "FetchUrl",
   "TodoWrite", "Task", "Skill",
   "read-only", "edit", "execute", "web", "mcp"]

/-- `TOOL_MAPPING` (analyzer.ts:36) as the ordered key/value table of the
object literal: `some d` is a string value, `none` is an explicit `null`. -/
def TOOL_MAPPING_TABLE : List (String × Option String) :=
  [("Read", some "Read"),
   ("Write", some "Create"),
   ("Edit", some "Edit"),
   ("MultiEdit", some "MultiEdit"),
   ("Bash", some "Execute"),
   ("Execute", some "Execute"),
   ("Glob", some "Glob"),
   ("Grep", some "Grep"),
   ("LS", some "LS"),
   ("WebSearch", some "WebSearch"),
   ("FetchUrl", some "FetchUrl"),
   ("TodoWrite", some "TodoWrite"),
   ("Task", some "Task"),
   ("Create", some "Create"),
   ("ApplyPatch", some "ApplyPatch"),
   ("Skill", some "Skill"),
   ("NotebookEdit", none),
   ("BrowseURL", none),
   ("WebFetch", some "FetchUrl"),
   ("AskUserQuestion", none)]

/-- The own-property part of the `TOOL_MAPPING[tool]` read: `some (some d)`
is an own string value, `some none` an explicit `null`, `none` a key the
literal does not own.  The full JS read also consults the prototype chain
(an absent key can yield a truthy inherited `Object.prototype` member);
that behaviour is modelled by `TOOL_MAPPING_JS` below. -/
def TOOL_MAPPING (tool : String) : Option (Option String) :=
  (TOOL_MAPPING_TABLE.find? (fun p => p.1 == tool)).map Prod.snd

/-! ## `MCP_TOOL_PATTERN` (analyzer.ts:146)

`/^mcp__([a-zA-Z0-9_-]+)(?:__(.+))?$/` — the first group is greedy over a
class that includes `_`, and the engine only backtracks it when the rest of
the pattern fails; the optional `(?:__(.+))?` can always match empty, so on
`mcp__server__tool` the first group keeps the whole remainder. -/

/-- The character class of the first capture group. -/
def mcpNameChar (c : Char) : Bool := c.isAlphanum || c == '_' || c == '-'

/-- Can `(?:__(.+))?$` match the remainder `t` (with the group present)?
`.` excludes line terminators and `$` is the true end (no `m` flag). -/
def mcpTailOk (t : List Char) : Bool :=
  match t with
  | '_' :: '_' :: rest => !rest.isEmpty && rest.all (fun c => !jsLineTerm c)
  | _ => false

/-- Greedy group-1 search: try the longest candidate first, backtracking one
character at a time, exactly as the regex engine does. -/
def mcpTryK (rest : List Char) : Nat → Option (List Char)
  | 0 => none
  | Nat.succ k =>
    let p := rest.take (k + 1)
    let t := rest.drop (k + 1)
    if p.all mcpNameChar && (t.isEmpty || mcpTailOk t) then some p
    else mcpTryK rest k

/-- `MCP_TOOL_PATTERN.exec(tool)`: `some g₁` is the first capture group (the
recorded "server"), `none` is a failed match. -/
def mcpExec (tool : String) : Option String :=
  if startsWithList "mcp__".data tool.data then
    let rest := tool.data.drop 5
    (mcpTryK rest rest.length).map (fun p => (⟨p⟩ : String))
  else none

/-! ## `BASH_RESTRICTION_PATTERN` (analyzer.ts:150): `/^(Bash|Execute)\(.+\)$/` -/

def bashRestrWith (pre : String) (s : String) : Bool :=
  startsWithList (pre ++ "(").data s.data &&
    (s.data.getLast?.elim false (fun c => c == ')')) &&
    (let mid := s.data.drop (pre.length + 1) |>.dropLast
     !mid.isEmpty && mid.all (fun c => !jsLineTerm c))

def isBashRestriction (s : String) : Bool :=
  bashRestrWith "Bash" s || bashRestrWith "Execute" s

/-! ## `analyzeTools` (analyzer.ts:152) -/

/-- The fixed strings the analyzer emits. -/
def askWarnMsg : String :=
  "AskUserQuestion not available - agent will use conversation flow for clarification"

def askSuggMsg : String :=
  "Consider adding 'Ask clarifying questions before proceeding' to the prompt"

def noEquivMsg (t : String) : String := "Tool '" ++ t ++ "' has no Factory equivalent"

def unknownToolMsg (t : String) : String :=
  "Unknown tool '" ++ t ++ "' - may be Claude-specific"

def reqMcpsMsg (ms : List String) : String :=
  "Requires MCP servers: " ++ String.intercalate ", " ms

/-- How one token is classified by the branch cascade of the loop body
(analyzer.ts:167-210), in the source's priority order. -/
inductive TokRes where
  | native
  | mcp (server : String)
  | bashRestr
  | mappedTo (m : String)
  | softUnmapped
  | nullUnmapped
  | unknown
deriving DecidableEq, Repr

def resolveTok (tool : String) : TokRes :=
  if FACTORY_TOOLS.contains tool then .native
  else match mcpExec tool with
    | some server => .mcp server
    | none =>
      if isBashRestriction tool then .bashRestr
      else match TOOL_MAPPING tool with
        | some (some m) => .mappedTo m
        | some none => if tool = "AskUserQuestion" then .softUnmapped else .nullUnmapped
        | none => .unknown

/-- The loop's mutable state: the six arrays being pushed to. -/
structure ToolLoopState where
  mapped : List String
  unmapped : List String
  requiredMcps : List String
  issues : List String
  warnings : List String
  suggestions : List String
deriving DecidableEq, Repr

def ToolLoopState.empty : ToolLoopState := ⟨[], [], [], [], [], []⟩

/-- One iteration of the `for (const tool of tools)` loop. -/
def toolStep (st : ToolLoopState) (tool : String) : ToolLoopState :=
  match resolveTok tool with
  | .native => { st with mapped := st.mapped ++ [tool] }
  | .mcp server =>
    { st with
      requiredMcps :=
        if st.requiredMcps.contains server then st.requiredMcps
        else st.requiredMcps ++ [server],
      mapped := st.mapped ++ [tool] }
  | .bashRestr => { st with mapped := st.mapped ++ ["Execute"] }
  | .mappedTo m => { st with mapped := st.mapped ++ [m] }
  | .softUnmapped =>
    { st with
      unmapped := st.unmapped ++ [tool],
      warnings := st.warnings ++ [askWarnMsg],
      suggestions := st.suggestions ++ [askSuggMsg] }
  | .nullUnmapped =>
    { st with
      unmapped := st.unmapped ++ [tool],
      issues := st.issues ++ [noEquivMsg tool] }
  | .unknown =>
    { st with
      unmapped := st.unmapped ++ [tool],
      issues := st.issues ++ [unknownToolMsg tool] }

/-- The record `analyzeTools` returns. -/
structure ToolAnalysis where
  mapped : List String
  unmapped : List String
  requiredMcps : List String
  issues : List String
  warnings : List String
  suggestions : List String
deriving DecidableEq, Repr

/-- `analyzeTools` (analyzer.ts:152-217). -/
def analyzeToolsFn (tools : List String) : ToolAnalysis :=
  let st := tools.foldl toolStep ToolLoopState.empty
  { mapped := jsDedup st.mapped
    unmapped := st.unmapped
    requiredMcps := st.requiredMcps
    issues := st.issues
    warnings :=
      st.warnings ++ (if st.requiredMcps.isEmpty then [] else [reqMcpsMsg st.requiredMcps])
    suggestions := st.suggestions }

/-! ## `mapToolsForFactory` (analyzer.ts:658-687) -/

def mapToolsStep (acc : List String) (tool : String) : List String :=
  if FACTORY_TOOLS.contains tool then acc ++ [tool]
  else if (mcpExec tool).isSome then acc ++ [tool]
  else if isBashRestriction tool then acc ++ ["Execute"]
  else match TOOL_MAPPING tool with
    | some (some m) => acc ++ [m]
    | _ => acc

def mapToolsForFactory (tools : List String) : List String :=
  jsDedup (tools.foldl mapToolsStep [])

/-! ## The prototype-chain behaviour of `TOOL_MAPPING[tool]`

`TOOL_MAPPING` is a plain object literal, so the indexed read consults the
prototype chain: for a key the literal does not own, an inherited property
of `Object.prototype` (`toString`, `constructor`, `valueOf`, ...) is
returned instead of `undefined`, and such a value is truthy.  The loop of
`mapToolsForFactory` then takes the `if (TOOL_MAPPING[tool])` branch and
pushes that inherited member into its `mapped` array (a function object,
despite the `string[]` annotation and the `!` assertion). -/

/-- The property names every plain object inherits from `Object.prototype`
(reading `__proto__` goes through its inherited accessor and yields the
prototype object, which is also truthy). -/
def OBJECT_PROTOTYPE_KEYS : List String :=
  ["constructor", "hasOwnProperty", "isPrototypeOf", "propertyIsEnumerable",
   "toLocaleString", "toString", "valueOf", "__proto__",
   "__defineGetter__", "__defineSetter__", "__lookupGetter__", "__lookupSetter__"]

/-- What a JS property read of `TOOL_MAPPING[tool]` can produce: an own
string value, an own `null`, a truthy inherited member of
`Object.prototype`, or `undefined`. -/
inductive JsProp where
  | str (s : String)
  | nullVal
  | protoMember (k : String)
  | undefinedV
deriving DecidableEq, Repr

/-- `TOOL_MAPPING[tool]` with the prototype chain: the own property when the
literal has one, otherwise the inherited `Object.prototype` member when the
key names one, otherwise `undefined`. -/
def TOOL_MAPPING_JS (tool : String) : JsProp :=
  match TOOL_MAPPING tool with
  | some (some s) => .str s
  | some none => .nullVal
  | none =>
    if OBJECT_PROTOTYPE_KEYS.contains tool then .protoMember tool else .undefinedV

/-- An entry of the loop's `mapped` array: normally a string, but
`mapped.push(TOOL_MAPPING[tool]!)` can push an inherited prototype member. -/
inductive JsArrVal where
  | str (s : String)
  | protoMember (k : String)
deriving DecidableEq, Repr

/-- One iteration of the `mapToolsForFactory` loop under the faithful
lookup: the `if (TOOL_MAPPING[tool])` truthiness test passes for own string
values and for inherited members, and both get pushed. -/
def mapToolsJsStep (acc : List JsArrVal) (tool : String) : List JsArrVal :=
  if FACTORY_TOOLS.contains tool then acc ++ [.str tool]
  else if (mcpExec tool).isSome then acc ++ [.str tool]
  else if isBashRestriction tool then acc ++ [.str "Execute"]
  else match TOOL_MAPPING_JS tool with
    | .str m => acc ++ [.str m]
    | .protoMember k => acc ++ [.protoMember k]
    | .nullVal => acc
    | .undefinedV => acc

/-- `[...new Set(xs)]` over array values (a JS `Set` compares strings by
value and the inherited members by reference, one per property name). -/
def jsDedupFromV (acc : List JsArrVal) : List JsArrVal → List JsArrVal
  | [] => acc
  | x :: xs => jsDedupFromV (if acc.contains x then acc else acc ++ [x]) xs

def jsDedupV (xs : List JsArrVal) : List JsArrVal := jsDedupFromV [] xs

/-- `mapToolsForFactory` (analyzer.ts:658-687) under the faithful
prototype-chain lookup. -/
def mapToolsForFactoryJS (tools : List String) : List JsArrVal :=
  jsDedupV (tools.foldl mapToolsJsStep [])

/-- Per-token contribution of the faithful loop (proof apparatus). -/
def tokJsContrib (tool : String) : List JsArrVal :=
  if FACTORY_TOOLS.contains tool then [.str tool]
  else if (mcpExec tool).isSome then [.str tool]
  else if isBashRestriction tool then [.str "Execute"]
  else match TOOL_MAPPING_JS tool with
    | .str m => [.str m]
    | .protoMember k => [.protoMember k]
    | .nullVal => []
    | .undefinedV => []

/-! ## Body-content checks (analyzer.ts:63-91, 219-239)

Each regex of `CLAUDE_SPECIFIC_PATTERNS` and `LEGACY_RUNTIME_PATTERNS` is
only used through `.test`, i.e. "does a match exist at some position".  The
scanner below walks every position of the text, carrying the previous
character (for `\b` and the multiline `^`). -/

/-- Does `p prev suffix` hold at some position of `l` (with `prev` the
character before that position)? -/
def reScanPos (p : Option Char → List Char → Bool) : Option Char → List Char → Bool
  | prev, l =>
    p prev l ||
      match l with
      | [] => false
      | c :: cs => reScanPos p (some c) cs

def reTest (p : Option Char → List Char → Bool) (s : String) : Bool :=
  reScanPos p none s.data

/-- Is the previous character a JS word character (`\b` reasoning)? -/
def prevIsWord : Option Char → Bool
  | none => false
  | some c => jsWordChar c

/-- Is this position a multiline `^` anchor point? -/
def atLineStart : Option Char → Bool
  | none => true
  | some c => jsLineTerm c

/-- Is the word boundary satisfied after a word character, i.e. is the next
character absent or a non-word character? -/
def endBoundary : List Char → Bool
  | [] => true
  | c :: _ => !jsWordChar c

/-- `/\/claude\s+/i` at this position. -/
def claude1At (_prev : Option Char) (l : List Char) : Bool :=
  startsWithCI "/claude".data l &&
    match l.drop 7 with
    | [] => false
    | c :: _ => jsWs c

/-- `/claude\s+code\s+specific/i` at this position (each `\s+` is maximal:
the literal after it starts with a non-space character). -/
def claude2At (_prev : Option Char) (l : List Char) : Bool :=
  startsWithCI "claude".data l &&
    (let l1 := l.drop 6
     !(l1.takeWhile jsWs).isEmpty &&
       (let l2 := l1.dropWhile jsWs
        startsWithCI "code".data l2 &&
          (let l3 := l2.drop 4
           !(l3.takeWhile jsWs).isEmpty &&
             startsWithCI "specific".data (l3.dropWhile jsWs))))

/-- `/NotebookEdit/` at this position. -/
def claude3At (_prev : Option Char) (l : List Char) : Bool :=
  startsWithList "NotebookEdit".data l

/-- `/@claude/i` at this position. -/
def claude4At (_prev : Option Char) (l : List Char) : Bool :=
  startsWithCI "@claude".data l

/-- `/\bAskUserQuestion\b/` at this position. -/
def legacyAskAt (prev : Option Char) (l : List Char) : Bool :=
  !prevIsWord prev && startsWithList "AskUserQuestion".data l &&
    endBoundary (l.drop 15)

/-- `/^\s*agent\s+\S+/m` at this position (case-sensitive; `\s*` and `\s+`
may cross line terminators). -/
def legacyAgentAt (prev : Option Char) (l : List Char) : Bool :=
  atLineStart prev &&
    (let l1 := l.dropWhile jsWs
     startsWithList "agent".data l1 &&
       (let l2 := l1.drop 5
        !(l2.takeWhile jsWs).isEmpty && !(l2.dropWhile jsWs).isEmpty))

/-- `/^\s*skill\s+\S+/m` at this position. -/
def legacySkillAt (prev : Option Char) (l : List Char) : Bool :=
  atLineStart prev &&
    (let l1 := l.dropWhile jsWs
     startsWithList "skill".data l1 &&
       (let l2 := l1.drop 5
        !(l2.takeWhile jsWs).isEmpty && !(l2.dropWhile jsWs).isEmpty))

/-- `/\b\.claude\//` at this position: `.` is not a word character, so the
boundary forces a word character right before it. -/
def legacyDotClaudeAt (prev : Option Char) (l : List Char) : Bool :=
  prevIsWord prev && startsWithList ".claude/".data l

/-- `checkClaudeSpecificContent` (analyzer.ts:219-227); messages carry each
pattern's `source` text. -/
def checkClaudeSpecificContent (content : String) : List String :=
  (if reTest claude1At content
   then ["Contains Claude-specific reference: \\/claude\\s+"] else []) ++
  (if reTest claude2At content
   then ["Contains Claude-specific reference: claude\\s+code\\s+specific"] else []) ++
  (if reTest claude3At content
   then ["Contains Claude-specific reference: NotebookEdit"] else []) ++
  (if reTest claude4At content
   then ["Contains Claude-specific reference: @claude"] else [])

def legacyAskWarn : String :=
  "References AskUserQuestion (not available in Factory) - should ask questions in normal chat"
def legacyAskSugg : String :=
  "Replace 'AskUserQuestion' references with plain-language prompts to ask the user"
def legacyAgentWarn : String :=
  "Contains 'agent <name>' invocations - Factory uses the Task tool + subagent_type"
def legacyAgentSugg : String :=
  "Replace 'agent <name>' with guidance to use the Task tool (subagent_type: <name>)"
def legacySkillWarn : String :=
  "Contains 'skill <name>' invocations - Factory uses the Skill tool"
def legacySkillSugg : String :=
  "Replace 'skill <name>' with guidance to use the Skill tool"
def legacyDotClaudeWarn : String :=
  "References .claude/ paths - Factory uses .factory/ for most local automation/config"
def legacyDotClaudeSugg : String :=
  "If this is a Factory workflow, update paths to .factory/ equivalents"

/-- `checkLegacyRuntimeContent` (analyzer.ts:229-239): `(warnings, suggestions)`,
each passed through `[...new Set(...)]`. -/
def checkLegacyRuntimeContent (content : String) : List String × List String :=
  let w :=
    (if reTest legacyAskAt content then [legacyAskWarn] else []) ++
    (if reTest legacyAgentAt content then [legacyAgentWarn] else []) ++
    (if reTest legacySkillAt content then [legacySkillWarn] else []) ++
    (if reTest legacyDotClaudeAt content then [legacyDotClaudeWarn] else [])
  let s :=
    (if reTest legacyAskAt content then [legacyAskSugg] else []) ++
    (if reTest legacyAgentAt content then [legacyAgentSugg] else []) ++
    (if reTest legacySkillAt content then [legacySkillSugg] else []) ++
    (if reTest legacyDotClaudeAt content then [legacyDotClaudeSugg] else [])
  (jsDedup w, jsDedup s)

/-! ## The per-kind analyzers (analyzer.ts:251-515) -/

/-- `parseTools` (analyzer.ts:133-143); a frontmatter tools value is absent
(`undef`, any falsy value), a string, or an array of strings. -/
inductive ToolsVal where
  | undef
  | str (s : String)
  | arr (xs : List String)
deriving DecidableEq, Repr

def parseTools : ToolsVal → List String
  | .undef => []
  | .arr xs => xs
  | .str s =>
    (((splitCommas s.data).map (fun p => jsTrim ⟨p⟩)).filter (fun t => t ≠ ""))

/-- Agent frontmatter as the analyzer reads it; a `""` string models a
missing or otherwise falsy field (only truthiness and the text itself are
ever used). -/
structure AgentFM where
  name : String
  description : String
  tools : ToolsVal
deriving DecidableEq, Repr

structure CommandFM where
  allowedTools : ToolsVal
deriving DecidableEq, Repr

structure SkillFM where
  name : String
  description : String
  allowedTools : ToolsVal
deriving DecidableEq, Repr

/-- The outcome of `fetchContent` plus gray-matter parsing: a thrown fetch
error, or content split into frontmatter and body (`parseWarn` records a
frontmatter parse failure, which leaves the frontmatter empty). -/
inductive Fetched (α : Type) where
  | err (msg : String)
  | ok (parseWarn : Bool) (fm : α) (body : String)

structure AnalysisResult where
  compatible : Bool
  score : Int
  issues : List String
  warnings : List String
  mappedTools : List String
  unmappedTools : List String
  requiredMcps : List String
  suggestions : List String
deriving DecidableEq, Repr

/-- The zero-score result for a failed fetch (analyzer.ts:262-271 etc). -/
def fetchFailResult (msg : String) : AnalysisResult :=
  ⟨false, 0, ["Failed to fetch content: " ++ msg], [], [], [], [], []⟩

/-- The scoring steps (analyzer.ts:320-323 and the two copies). -/
def computeScore (i w : Nat) : Int :=
  max 0 (min 100 (100 - 20 * (i : Int) - 5 * (w : Int)))

/-- `/^[a-z0-9_-]+$/i.test(name)` (analyzer.ts:288). -/
def nameRegexOk (s : String) : Bool :=
  !s.data.isEmpty && s.data.all (fun c => c.isAlphanum || c == '_' || c == '-')

def parseWarnMsg : String := "Failed to parse YAML frontmatter"
def missingNameMsg : String := "Missing required 'name' field"
def nameFormatWarnMsg : String := "Name should be lowercase with hyphens/underscores only"
def missingDescMsg : String := "Missing 'description' field (recommended)"
def considerRemovingMsg (um : List String) : String :=
  "Consider removing or replacing: " ++ String.intercalate ", " um

/-- `analyzeAgent` (analyzer.ts:251-339), from the fetch outcome on. -/
def analyzeAgentFn (agentName : String) : Fetched AgentFM → AnalysisResult
  | .err msg => fetchFailResult msg
  | .ok pw fm body =>
    let warnings0 : List String := if pw then [parseWarnMsg] else []
    let nm := if fm.name ≠ "" then fm.name else agentName
    let issues0 : List String := if nm = "" then [missingNameMsg] else []
    let warnings1 := warnings0 ++
      (if nm = "" then [] else if nameRegexOk nm then [] else [nameFormatWarnMsg])
    let ta := analyzeToolsFn (parseTools fm.tools)
    let issues := issues0 ++ ta.issues
    let warnings2 := warnings1 ++ ta.warnings
    let suggestions0 := ta.suggestions ++
      (if ta.unmapped.isEmpty then [] else [considerRemovingMsg ta.unmapped])
    let warnings3 := warnings2 ++ checkClaudeSpecificContent body
    let legacy := checkLegacyRuntimeContent body
    let warnings4 := warnings3 ++ legacy.1
    let suggestions := suggestions0 ++ legacy.2
    let warnings := warnings4 ++
      (if fm.description = "" then [missingDescMsg] else [])
    { compatible := (ta.unmapped.filter (fun t => t ≠ "AskUserQuestion")).isEmpty
      score := computeScore issues.length warnings.length
      issues := issues
      warnings := warnings
      mappedTools := ta.mapped
      unmappedTools := ta.unmapped
      requiredMcps := ta.requiredMcps
      suggestions := suggestions }

/-- `analyzeCommand` (analyzer.ts:341-409), from the fetch outcome on. -/
def analyzeCommandFn : Fetched CommandFM → AnalysisResult
  | .err msg => fetchFailResult msg
  | .ok pw fm body =>
    let warnings0 : List String := if pw then [parseWarnMsg] else []
    let ta := analyzeToolsFn (parseTools fm.allowedTools)
    let issues := ta.issues
    let warnings1 := warnings0 ++ ta.warnings
    let warnings2 := warnings1 ++ checkClaudeSpecificContent body
    let legacy := checkLegacyRuntimeContent body
    let warnings := warnings2 ++ legacy.1
    let suggestions := ta.suggestions ++ legacy.2
    { compatible := (ta.unmapped.filter (fun t => t ≠ "AskUserQuestion")).isEmpty
      score := computeScore issues.length warnings.length
      issues := issues
      warnings := warnings
      mappedTools := ta.mapped
      unmappedTools := ta.unmapped
      requiredMcps := ta.requiredMcps
      suggestions := suggestions }

/-- The zero-score result for a skill without a main file (analyzer.ts:428-439). -/
def missingSkillResult : AnalysisResult :=
  ⟨false, 0, ["Missing SKILL.md file"], [], [], [], [], []⟩

/-- `analyzeSkill` (analyzer.ts:411-515): `files` are the skill's relative
paths; `fetched` is the outcome of fetching the main file when one exists. -/
def analyzeSkillFn (files : List String) (fetched : Fetched SkillFM) : AnalysisResult :=
  match files.find? (fun f => strToLower f == "skill.md" || strToLower f == "skill.mdx") with
  | none => missingSkillResult
  | some _ =>
    match fetched with
    | .err msg => fetchFailResult msg
    | .ok pw fm body =>
      let warnings0 : List String := if pw then [parseWarnMsg] else []
      let issues0 : List String := if fm.name = "" then [missingNameMsg] else []
      let warnings1 := warnings0 ++ (if fm.description = "" then [missingDescMsg] else [])
      let tools := parseTools fm.allowedTools
      let ta := if tools.isEmpty then ⟨[], [], [], [], [], []⟩ else analyzeToolsFn tools
      let issues := issues0 ++ ta.issues
      let warnings2 := warnings1 ++ ta.warnings
      let suggestions0 := ta.suggestions
      let warnings3 := warnings2 ++ checkClaudeSpecificContent body
      let legacy := checkLegacyRuntimeContent body
      let warnings := warnings3 ++ legacy.1
      let suggestions := suggestions0 ++ legacy.2
      { compatible := (ta.unmapped.filter (fun t => t ≠ "AskUserQuestion")).isEmpty
        score := computeScore issues.length warnings.length
        issues := issues
        warnings := warnings
        mappedTools := ta.mapped
        unmappedTools := ta.unmapped
        requiredMcps := ta.requiredMcps
        suggestions := suggestions }

/-! ## src/fixer-droid.ts — `normalizeText` and its helpers -/

structure NormalizeOptions where
  availableDroids : Option (List String)
  availableSkills : Option (List String)
  fileKind : String
  addHeaderNote : Option Bool
deriving DecidableEq, Repr

structure NormalizeResult where
  text : String
  changed : Bool
  notes : List String
  referencedDroids : List String
  unresolvedDroids : List String
  referencedSkills : List String
  unresolvedSkills : List String
deriving DecidableEq, Repr

def isQuoteChar (c : Char) : Bool := c == '\'' || c == '"'

/-- `stripQuotes` (fixer-droid.ts:56): `s.replace(/^['"]+|['"]+$/g, "")`. -/
def stripQuotes (s : String) : String :=
  ⟨(((s.data.dropWhile isQuoteChar).reverse.dropWhile isQuoteChar).reverse)⟩

/-- `isLikelyDroidName` (fixer-droid.ts:60): `/^[a-z0-9_-]+$/`. -/
def isLikelyDroidName (s : String) : Bool :=
  !s.data.isEmpty &&
    s.data.all (fun c => ('a' ≤ c && c ≤ 'z') || c.isDigit || c == '_' || c == '-')

/-- Plain substring occurrence (a regex of literal characters, `.test`). -/
def containsLitL (pat : List Char) (l : List Char) : Bool :=
  reScanPos (fun _ suf => startsWithList pat suf) none l

def containsLit (pat : List Char) (s : String) : Bool := containsLitL pat s.data

/-- `headerNote` (fixer-droid.ts:65). -/
def headerNote (kind : String) (notes : List String) : String :=
  "<!-- Factory Import Normalizer (" ++ kind ++ ")" ++
    (if notes.isEmpty then "" else ": " ++ String.intercalate "; " notes) ++ " -->\n\n"

/-- `/^<!--\s*Factory Import Normalizer\b/m` at one position. -/
def headerNoteAt (prev : Option Char) (l : List Char) : Bool :=
  atLineStart prev && startsWithList "<!--".data l &&
    (let l1 := (l.drop 4).dropWhile jsWs
     startsWithList "Factory Import Normalizer".data l1 && endBoundary (l1.drop 25))

/-- `alreadyHasHeaderNote` (fixer-droid.ts:70). -/
def alreadyHasHeaderNote (s : String) : Bool := reTest headerNoteAt s

/-! ### Pass 1: the four AskUserQuestion replacements (fixer-droid.ts:87-95)

Each global replace is a left-to-right scan.  For `\bUse\s+BT?AskUserQuestionBT?\b` (BT a backtick)
the engine's backtracking resolves deterministically: the optional leading
backtick is consumed iff present, and the optional trailing backtick is
consumed iff a word character follows it (otherwise the boundary already
holds after the `n`).  A word-boundary check only needs to know whether the
previous character was a word character, so the scans carry that Bool. -/

/-- Match `\b<verb>\s+BT?AskUserQuestionBT?\b` (BT a backtick) (case-insensitively) at this
position; `some (pw, rem)` gives the remainder after the match and whether
the last consumed character was a word character. -/
def matchAskVerbAt (verb : List Char) (prevW : Bool) (l : List Char) :
    Option (Bool × List Char) :=
  if prevW then none
  else if startsWithCI verb l then
    let l1 := l.drop verb.length
    if (l1.takeWhile jsWs).isEmpty then none
    else
      let l2 := l1.dropWhile jsWs
      let l3 := if startsWithList ['`'] l2 then l2.drop 1 else l2
      if startsWithCI "askuserquestion".data l3 then
        match l3.drop 15 with
        | '`' :: l5 =>
          match l5 with
          | c :: _ => if jsWordChar c then some (false, l5) else some (true, '`' :: l5)
          | [] => some (true, '`' :: l5)
        | c :: l5 => if jsWordChar c then none else some (true, c :: l5)
        | [] => some (true, [])
      else none
  else none

/-- One global replace `text.replace(/\b<verb>\s+BT?AskUserQuestionBT?\b/gi,
"Ask the user")` as a fuel-indexed scan (fuel starts at the text length). -/
def askVerbScan (verb : List Char) : Nat → Bool → List Char → List Char
  | 0, _, l => l
  | Nat.succ fuel, prevW, l =>
    match matchAskVerbAt verb prevW l with
    | some (pw, rem) => "Ask the user".data ++ askVerbScan verb fuel pw rem
    | none =>
      match l with
      | [] => []
      | c :: cs => c :: askVerbScan verb fuel (jsWordChar c) cs

/-- The backtick-wrapped replace: `text.replace` of a backtick, `AskUserQuestion`, a backtick, globally, with "ask the user". -/
def askTickScan : Nat → List Char → List Char
  | 0, l => l
  | Nat.succ fuel, l =>
    if startsWithList "`AskUserQuestion`".data l then
      "ask the user".data ++ askTickScan fuel (l.drop 17)
    else
      match l with
      | [] => []
      | c :: cs => c :: askTickScan fuel cs

/-- Match `\bAskUserQuestion\b` at this position. -/
def bareAskAt (prevW : Bool) (l : List Char) : Bool :=
  !prevW && startsWithList "AskUserQuestion".data l && endBoundary (l.drop 15)

/-- `text.replace(/\bAskUserQuestion\b/g, "ask the user")`. -/
def askBareScan : Nat → Bool → List Char → List Char
  | 0, _, l => l
  | Nat.succ fuel, prevW, l =>
    if bareAskAt prevW l then
      "ask the user".data ++ askBareScan fuel true (l.drop 15)
    else
      match l with
      | [] => []
      | c :: cs => c :: askBareScan fuel (jsWordChar c) cs

/-- The whole AskUserQuestion block (fixer-droid.ts:87-95), minus its guard. -/
def pass1 (t : List Char) : List Char :=
  let t1 := askVerbScan "use".data t.length false t
  let t2 := askVerbScan "invoke".data t1.length false t1
  let t3 := askTickScan t2.length t2
  askBareScan t3.length false t3

/-! ### Passes 2 and 3: line-leading `agent <name>`/`skill <name>` rewrites
(fixer-droid.ts:97-124).  The pattern `/^([\t ]*)agent\s+([^\s]+)(.*)$/gim`
is anchored at line starts; `\s+` may cross line terminators, `[^\s]+` is
the maximal non-space run, and `(.*)$` is the rest of that run's line. -/

structure LineMatch where
  indent : List Char
  name : List Char
  rest : List Char
  remainder : List Char
deriving DecidableEq, Repr

/-- Match `^([\t ]*)<kw>\s+([^\s]+)(.*)$` at a line-start position
(`kw` lowercased; the `i` flag applies). -/
def matchInvokeLineAt (kw : List Char) (l : List Char) : Option LineMatch :=
  let indent := l.takeWhile (fun c => c == '\t' || c == ' ')
  let l1 := l.drop indent.length
  if startsWithCI kw l1 then
    let l2 := l1.drop kw.length
    if (l2.takeWhile jsWs).isEmpty then none
    else
      let l3 := l2.dropWhile jsWs
      let name := l3.takeWhile (fun c => !jsWs c)
      if name.isEmpty then none
      else
        let l4 := l3.drop name.length
        let rest := l4.takeWhile (fun c => !jsLineTerm c)
        some ⟨indent, name, rest, l4.drop rest.length⟩
  else none

/-- The droid name a match's callback computes: `stripQuotes(String(rawName).trim())`. -/
def matchName (m : LineMatch) : String := stripQuotes (jsTrim ⟨m.name⟩)

/-- The `agent` replacement text of one match (fixer-droid.ts:99-113). -/
def agentReplText (known : Bool) (nm : String) (m : LineMatch) : List Char :=
  m.indent ++ "Use Task tool with subagent_type `".data ++ nm.data ++ ['`'] ++
    (if known then [] else
     if isLikelyDroidName nm then " (if available)".data
     else " (legacy name; may not exist)".data) ++ m.rest

/-- The `skill` replacement text of one match (fixer-droid.ts:116-124). -/
def skillReplText (known : Bool) (nm : String) (m : LineMatch) : List Char :=
  m.indent ++ "Use Skill tool: `".data ++ nm.data ++ ['`'] ++
    (if known then [] else " (if available)".data) ++ m.rest

/-- The `agent` pass: rewritten text, referenced droids, unresolved droids,
in match order. -/
def agentScanGo (avail : Option (List String)) :
    Nat → Bool → List Char → List Char × List String × List String
  | 0, _, l => (l, [], [])
  | Nat.succ fuel, lineStart, l =>
    match (if lineStart then matchInvokeLineAt "agent".data l else none) with
    | some m =>
      let nm := matchName m
      let known := match avail with
        | some s => s.contains nm
        | none => false
      let (t, rd, ud) := agentScanGo avail fuel false m.remainder
      (agentReplText known nm m ++ t, nm :: rd, if known then ud else nm :: ud)
    | none =>
      match l with
      | [] => ([], [], [])
      | c :: cs =>
        let (t, rd, ud) := agentScanGo avail fuel (jsLineTerm c) cs
        (c :: t, rd, ud)

/-- The `skill` pass. -/
def skillScanGo (avail : Option (List String)) :
    Nat → Bool → List Char → List Char × List String × List String
  | 0, _, l => (l, [], [])
  | Nat.succ fuel, lineStart, l =>
    match (if lineStart then matchInvokeLineAt "skill".data l else none) with
    | some m =>
      let nm := matchName m
      let known := match avail with
        | some s => s.contains nm
        | none => false
      let (t, rs, us) := skillScanGo avail fuel false m.remainder
      (skillReplText known nm m ++ t, nm :: rs, if known then us else nm :: us)
    | none =>
      match l with
      | [] => ([], [], [])
      | c :: cs =>
        let (t, rs, us) := skillScanGo avail fuel (jsLineTerm c) cs
        (c :: t, rs, us)

/-- `normalizeText` (fixer-droid.ts:74-145). -/
def normalizeText (input : String) (opts : NormalizeOptions) : NormalizeResult :=
  let original := input.data
  let hasAsk := containsLitL "AskUserQuestion".data original
  let t1 := if hasAsk then pass1 original else original
  let p2 := agentScanGo opts.availableDroids t1.length true t1
  let t2 := p2.1
  let p3 := skillScanGo opts.availableSkills t2.length true t2
  let t3 := p3.1
  let notes :=
    (if hasAsk then ["removed AskUserQuestion"] else []) ++
    (if t3 ≠ original then
      (if containsLitL "Use Task tool with subagent_type".data t3
       then ["converted agent invocations"] else []) ++
      (if containsLitL "Use Skill tool:".data t3
       then ["converted skill invocations"] else [])
     else [])
  let text3 : String := ⟨t3⟩
  let text :=
    if t3 ≠ original ∧ opts.addHeaderNote ≠ some false ∧ alreadyHasHeaderNote text3 = false
    then headerNote opts.fileKind (jsDedup notes) ++ text3 else text3
  { text := text
    changed := decide (t3 ≠ original)
    notes := jsDedup notes
    referencedDroids := jsDedup p2.2.1
    unresolvedDroids := jsDedup p2.2.2
    referencedSkills := jsDedup p3.2.1
    unresolvedSkills := jsDedup p3.2.2 }

/-! ## src/converters/command.ts — `convertCommand` (and the later variant in
src/converters/agent.ts:165-248 that also normalizes the body) -/

/-- A frontmatter value as the converter inspects it: a string, an array of
strings, or some other value (only its truthiness matters — `sanitizeValue`
returns `undefined` for every non-string). -/
inductive YVal where
  | str (s : String)
  | arr (xs : List String)
  | otherTruthy
  | otherFalsy
deriving DecidableEq, Repr

def yvalTruthy : YVal → Bool
  | .str s => s ≠ ""
  | .arr _ => true
  | .otherTruthy => true
  | .otherFalsy => false

/-- The three allowed frontmatter keys after filtering (`none` = key absent). -/
structure CmdFM where
  description : Option YVal
  argumentHint : Option YVal
  allowedTools : Option YVal
deriving DecidableEq, Repr

/-- gray-matter's outcome inside the converter: parse failure, or
frontmatter (already filtered to the allowed keys) plus body. -/
inductive MatterOutcome where
  | fail
  | ok (fm : CmdFM) (body : String)
deriving DecidableEq, Repr

/-- `s.replace(/\\[nrt]/gi, " ")`. -/
def replEscapes : List Char → List Char
  | [] => []
  | '\\' :: c :: rest =>
    if c.toLower == 'n' || c.toLower == 'r' || c.toLower == 't'
    then ' ' :: replEscapes rest
    else '\\' :: replEscapes (c :: rest)
  | c :: rest => c :: replEscapes rest

/-- The composition `.replace(/\s*\n\s*/g, " ").replace(/\s+/g, " ")`: both
together turn every maximal whitespace run into a single space (the first
replace turns each newline-bearing run into `" "`, the second collapses the
remaining runs). -/
def collapseWsGo (prevWs : Bool) : List Char → List Char
  | [] => []
  | c :: cs =>
    if jsWs c then
      (if prevWs then collapseWsGo true cs else ' ' :: collapseWsGo true cs)
    else c :: collapseWsGo false cs

/-- `sanitizeValue` (command.ts:9-16) on a string value; `none` is the
`undefined` of the `s || undefined` return. -/
def sanitizeValueStr (s : String) : Option String :=
  let r := jsTrim ⟨collapseWsGo false (replEscapes s.data)⟩
  if r = "" then none else some r

/-- `sanitizeValue` on any frontmatter value. -/
def sanitizeValue : YVal → Option String
  | .str s => sanitizeValueStr s
  | _ => none

def yamlReservedLead (c : Char) : Bool :=
  c == '-' || c == '?' || c == ':' || c == ',' || c == '[' || c == ']' ||
  c == '{' || c == '}' || c == '#' || c == '&' || c == '*' || c == '!' ||
  c == '|' || c == '>' || c == '\'' || c == '"' || c == '%' || c == '@' || c == '`'

/-- `isPlainYamlSafe` (command.ts:18-27). -/
def isPlainYamlSafe (s : String) : Bool :=
  match s.data, s.data.getLast? with
  | [], _ => true
  | c :: _, lastc =>
    !s.data.any (fun d => d == '\r' || d == '\n') &&
    !jsWs c && !(lastc.elim false jsWs) &&
    !yamlReservedLead c && !s.data.any (fun d => d == '#')

/-- `escYaml` (command.ts:29-31): backslashes doubled, quotes escaped. -/
def escYamlChar (c : Char) : List Char :=
  if c == '\\' then ['\\', '\\'] else if c == '"' then ['\\', '"'] else [c]

def escYaml (s : String) : String := ⟨joinMap escYamlChar s.data⟩

/-- The serialized line(s) for a scalar key (description / argument-hint). -/
def scalarLines (key : String) : Option YVal → List String
  | none => []
  | some v =>
    if yvalTruthy v then
      match sanitizeValue v with
      | some d =>
        if isPlainYamlSafe d then [key ++ ": " ++ d]
        else [key ++ ": \"" ++ escYaml d ++ "\""]
      | none => []
    else []

/-- The `allowed-tools` lines of the command.ts converter (command.ts:84-105). -/
def toolsLinesV1 : Option YVal → List String
  | none => []
  | some v =>
    if yvalTruthy v then
      match v with
      | .arr ts => ["allowed-tools:"] ++ ts.map (fun t => "  - " ++ t)
      | .str s =>
        match parseTools (.str s) with
        | [] => []
        | [t] => ["allowed-tools: " ++ t]
        | ts => ["allowed-tools:"] ++ ts.map (fun t => "  - " ++ t)
      | _ => []
    else []

/-- `convertCommand` (src/converters/command.ts:33-109). -/
def convertCommandFn (mdText : String) : MatterOutcome → String
  | .fail => mdText
  | .ok fm body =>
    if fm.description = none ∧ fm.argumentHint = none ∧ fm.allowedTools = none then
      (if jsTrim body ≠ "" then body else mdText)
    else
      let lines := ["---"] ++ scalarLines "description" fm.description ++
        scalarLines "argument-hint" fm.argumentHint ++
        toolsLinesV1 fm.allowedTools ++ ["---"]
      String.intercalate "\n" lines ++ "\n\n" ++ body

/-- The `allowed-tools` lines of the agent.ts converter variant
(agent.ts:222-244): tokens run through `mapToolsForFactory`, and a single
mapped tool is still emitted in block form. -/
def toolsLinesV2 : Option YVal → List String
  | none => []
  | some v =>
    if yvalTruthy v then
      let toolList := match v with
        | .arr ts => ts
        | .str s => parseTools (.str s)
        | _ => []
      match mapToolsForFactory toolList with
      | [] => []
      | ts => ["allowed-tools:"] ++ ts.map (fun t => "  - " ++ t)
    else []

/-- `convertCommand` (src/converters/agent.ts:165-248): like the command.ts
version but the body is normalized first (fileKind "command", no marker). -/
def convertCommandV2Fn (mdText : String) : MatterOutcome → String
  | .fail => mdText
  | .ok fm body =>
    let normalizedBody :=
      (normalizeText body ⟨none, none, "command", some false⟩).text
    if fm.description = none ∧ fm.argumentHint = none ∧ fm.allowedTools = none then
      (if jsTrim normalizedBody ≠ "" then normalizedBody else mdText)
    else
      let lines := ["---"] ++ scalarLines "description" fm.description ++
        scalarLines "argument-hint" fm.argumentHint ++
        toolsLinesV2 fm.allowedTools ++ ["---"]
      String.intercalate "\n" lines ++ "\n\n" ++ normalizedBody

/-! ## Proof apparatus: per-token views of the analyzer loop

`toolStep`'s pushes to each array depend only on the current token, and the
`requiredMcps` insertion is a `contains`-guarded append; the definitions
below name those per-token contributions so the fold can be characterized. -/

def tokMapContrib (t : String) : List String :=
  match resolveTok t with
  | .native => [t]
  | .mcp _ => [t]
  | .bashRestr => ["Execute"]
  | .mappedTo m => [m]
  | _ => []

def tokUnmappedB (t : String) : Bool :=
  match resolveTok t with
  | .softUnmapped => true
  | .nullUnmapped => true
  | .unknown => true
  | _ => false

def tokServer (t : String) : Option String :=
  match resolveTok t with
  | .mcp s => some s
  | _ => none

def tokIssues (t : String) : List String :=
  match resolveTok t with
  | .nullUnmapped => [noEquivMsg t]
  | .unknown => [unknownToolMsg t]
  | _ => []

def tokWarns (t : String) : List String :=
  match resolveTok t with
  | .softUnmapped => [askWarnMsg]
  | _ => []

def tokSuggs (t : String) : List String :=
  match resolveTok t with
  | .softUnmapped => [askSuggMsg]
  | _ => []

/-- The `contains`-guarded push used for `requiredMcps`. -/
def insStr (acc : List String) (x : String) : List String :=
  if acc.contains x then acc else acc ++ [x]

/-- The deduplicated server list of a token list. -/
def mcpsOf (ts : List String) : List String :=
  (ts.filterMap tokServer).foldl insStr []

/-! # Lemmas -/

theorem joinMap_append (f : α → List β) (l₁ l₂ : List α) :
    joinMap f (l₁ ++ l₂) = joinMap f l₁ ++ joinMap f l₂ := by
  induction l₁ with
  | nil => simp [joinMap]
  | cons x xs ih => simp [joinMap, ih]

theorem mem_jsDedupFrom {x : String} {acc xs : List String} :
    x ∈ jsDedupFrom acc xs ↔ x ∈ acc ∨ x ∈ xs := by
  induction xs generalizing acc with
  | nil => simp [jsDedupFrom]
  | cons y ys ih =>
    by_cases hc : acc.contains y
    · have hy : y ∈ acc := by simpa using hc
      simp only [jsDedupFrom, hc, if_pos]
      rw [ih]
      constructor
      · rintro (h | h)
        · exact Or.inl h
        · exact Or.inr (List.mem_cons_of_mem _ h)
      · rintro (h | h)
        · exact Or.inl h
        · rcases List.mem_cons.mp h with rfl | h
          · exact Or.inl hy
          · exact Or.inr h
    · simp only [jsDedupFrom, hc, if_neg, Bool.false_eq_true, not_false_iff]
      rw [ih]
      simp only [List.mem_append, List.mem_singleton, List.mem_cons]
      tauto

theorem jsDedupFrom_nodup {acc xs : List String} (h : acc.Nodup) :
    (jsDedupFrom acc xs).Nodup := by
  induction xs generalizing acc with
  | nil => exact h
  | cons y ys ih =>
    by_cases hc : acc.contains y
    · simp only [jsDedupFrom, hc, if_pos]
      exact ih h
    · simp only [jsDedupFrom, hc, if_neg, Bool.false_eq_true, not_false_iff]
      apply ih
      have hy : y ∉ acc := by simpa using hc
      simp [List.nodup_append, h, hy]

theorem jsDedup_nodup (xs : List String) : (jsDedup xs).Nodup :=
  jsDedupFrom_nodup List.nodup_nil

theorem mem_jsDedup {x : String} {xs : List String} : x ∈ jsDedup xs ↔ x ∈ xs := by
  rw [jsDedup, mem_jsDedupFrom]
  simp

/-! ### Characterizing the `analyzeTools` loop -/

theorem toolLoop_char (ts : List String) (s0 : ToolLoopState) :
    ts.foldl toolStep s0 =
      { mapped := s0.mapped ++ joinMap tokMapContrib ts
        unmapped := s0.unmapped ++ ts.filter tokUnmappedB
        requiredMcps := (ts.filterMap tokServer).foldl insStr s0.requiredMcps
        issues := s0.issues ++ joinMap tokIssues ts
        warnings := s0.warnings ++ joinMap tokWarns ts
        suggestions := s0.suggestions ++ joinMap tokSuggs ts } := by
  induction ts generalizing s0 with
  | nil => simp [joinMap]
  | cons t ts ih =>
    rw [List.foldl_cons, ih]
    cases h : resolveTok t <;>
      simp [toolStep, h, tokMapContrib, tokUnmappedB, tokServer, tokIssues,
        tokWarns, tokSuggs, joinMap, insStr, List.filter_cons]

theorem analyzeToolsFn_char (ts : List String) :
    analyzeToolsFn ts =
      { mapped := jsDedup (joinMap tokMapContrib ts)
        unmapped := ts.filter tokUnmappedB
        requiredMcps := mcpsOf ts
        issues := joinMap tokIssues ts
        warnings := joinMap tokWarns ts ++
          (if (mcpsOf ts).isEmpty then [] else [reqMcpsMsg (mcpsOf ts)])
        suggestions := joinMap tokSuggs ts } := by
  rw [analyzeToolsFn]
  rw [show ToolLoopState.empty = (⟨[], [], [], [], [], []⟩ : ToolLoopState) from rfl]
  rw [toolLoop_char]
  simp only [List.nil_append, mcpsOf]

theorem analyzeToolsFn_nil : analyzeToolsFn [] = ⟨[], [], [], [], [], []⟩ := rfl

theorem mapToolsFold_char (ts : List String) (acc : List String) :
    ts.foldl mapToolsStep acc = acc ++ joinMap tokMapContrib ts := by
  induction ts generalizing acc with
  | nil => simp [joinMap]
  | cons t ts ih =>
    rw [List.foldl_cons, ih]
    have hstep : mapToolsStep acc t = acc ++ tokMapContrib t := by
      rw [mapToolsStep, tokMapContrib, resolveTok]
      by_cases h1 : t ∈ FACTORY_TOOLS
      · simp [h1]
      · cases h2 : mcpExec t with
        | some s => simp [h1, h2]
        | none =>
          by_cases h3 : isBashRestriction t
          · simp [h1, h2, h3]
          · cases h4 : TOOL_MAPPING t with
            | none => simp [h1, h2, h3, h4]
            | some v =>
              cases v with
              | none =>
                by_cases h5 : t = "AskUserQuestion"
                · subst h5; simp [h1, h2, h3, h4]
                · simp [h1, h2, h3, h4, h5]
              | some m => simp [h1, h2, h3, h4]
    rw [hstep]
    simp [joinMap]

theorem mapToolsForFactory_char (ts : List String) :
    mapToolsForFactory ts = jsDedup (joinMap tokMapContrib ts) := by
  rw [mapToolsForFactory, mapToolsFold_char]
  rfl

theorem mem_joinMap {f : α → List β} {x : β} {l : List α} :
    x ∈ joinMap f l ↔ ∃ a ∈ l, x ∈ f a := by
  induction l with
  | nil => simp [joinMap]
  | cons y ys ih => simp [joinMap, ih]

/-- Every non-null value of `TOOL_MAPPING` is a valid Factory tool. -/
theorem toolMapping_range {t m : String} (h : TOOL_MAPPING t = some (some m)) :
    m ∈ FACTORY_TOOLS := by
  rw [TOOL_MAPPING] at h
  rcases Option.map_eq_some'.mp h with ⟨p, hfind, hsnd⟩
  have hp := List.mem_of_find?_eq_some hfind
  have hall : ∀ p ∈ TOOL_MAPPING_TABLE, ∀ m', p.2 = some m' → m' ∈ FACTORY_TOOLS := by
    decide
  exact hall p hp m hsnd

/-- Full inversion of the branch cascade of `resolveTok`. -/
theorem resolveTok_inv (t : String) :
    (resolveTok t = .native ∧ t ∈ FACTORY_TOOLS) ∨
    (∃ s, resolveTok t = .mcp s ∧ mcpExec t = some s) ∨
    resolveTok t = .bashRestr ∨
    (∃ m, resolveTok t = .mappedTo m ∧ TOOL_MAPPING t = some (some m)) ∨
    (resolveTok t = .softUnmapped ∧ t = "AskUserQuestion") ∨
    resolveTok t = .nullUnmapped ∨
    resolveTok t = .unknown := by
  by_cases hm : t ∈ FACTORY_TOOLS
  · refine Or.inl ⟨?_, hm⟩
    simp [resolveTok, hm]
  · cases h2 : mcpExec t with
    | some s =>
      refine Or.inr (Or.inl ⟨s, ?_, rfl⟩)
      simp [resolveTok, hm, h2]
    | none =>
      cases h3 : isBashRestriction t with
      | true =>
        refine Or.inr (Or.inr (Or.inl ?_))
        simp [resolveTok, hm, h2, h3]
      | false =>
        cases h4 : TOOL_MAPPING t with
        | none =>
          refine Or.inr (Or.inr (Or.inr (Or.inr (Or.inr (Or.inr ?_)))))
          simp [resolveTok, hm, h2, h3, h4]
        | some v =>
          cases v with
          | some m =>
            refine Or.inr (Or.inr (Or.inr (Or.inl ⟨m, ?_, rfl⟩)))
            simp [resolveTok, hm, h2, h3, h4]
          | none =>
            by_cases h5 : t = "AskUserQuestion"
            · refine Or.inr (Or.inr (Or.inr (Or.inr (Or.inl ⟨?_, h5⟩))))
              subst h5
              simp [resolveTok, hm, h2, h3, h4]
            · refine Or.inr (Or.inr (Or.inr (Or.inr (Or.inr (Or.inl ?_)))))
              simp [resolveTok, hm, h2, h3, h4, h5]

theorem resolveTok_native {t : String} (h : resolveTok t = .native) :
    t ∈ FACTORY_TOOLS := by
  rcases resolveTok_inv t with ⟨_, hm⟩ | ⟨s, he, _⟩ | he | ⟨m, he, _⟩ | ⟨he, _⟩ | he | he <;>
    first
    | exact hm
    | (rw [h] at he; exact absurd he (by simp))

theorem resolveTok_mcp {t s : String} (h : resolveTok t = .mcp s) :
    mcpExec t = some s := by
  rcases resolveTok_inv t with ⟨he, _⟩ | ⟨s', he, hx⟩ | he | ⟨m, he, _⟩ | ⟨he, _⟩ | he | he <;>
    rw [h] at he <;> first
    | (cases he; exact hx)
    | exact absurd he (by simp)

theorem resolveTok_mapped {t m : String} (h : resolveTok t = .mappedTo m) :
    TOOL_MAPPING t = some (some m) := by
  rcases resolveTok_inv t with ⟨he, _⟩ | ⟨s', he, _⟩ | he | ⟨m', he, hx⟩ | ⟨he, _⟩ | he | he <;>
    rw [h] at he <;> first
    | (cases he; exact hx)
    | exact absurd he (by simp)

theorem resolveTok_soft {t : String} (h : resolveTok t = .softUnmapped) :
    t = "AskUserQuestion" := by
  rcases resolveTok_inv t with ⟨he, _⟩ | ⟨s', he, _⟩ | he | ⟨m', he, _⟩ | ⟨he, hx⟩ | he | he <;>
    rw [h] at he <;> first
    | exact hx
    | exact absurd he (by simp)

/-! # Claim theorems -/

/-- C4 (evaluation at the failing input): `MCP_TOOL_PATTERN` records the
dependency of `mcp__server` as `server` but that of `mcp__server__tool` as
`server__tool` — the greedy first group swallows `__tool`, so the recorded
"server" names differ and the combined list records two dependencies, not
one.  Both tokens are still passed through unchanged. -/
theorem claim4_mcp_dependency_eval :
    mcpExec "mcp__server" = some "server" ∧
    mcpExec "mcp__server__tool" = some "server__tool" ∧
    (analyzeToolsFn ["mcp__server"]).requiredMcps = ["server"] ∧
    (analyzeToolsFn ["mcp__server__tool"]).requiredMcps = ["server__tool"] ∧
    (analyzeToolsFn ["mcp__server", "mcp__server__tool"]).requiredMcps =
      ["server", "server__tool"] ∧
    (analyzeToolsFn ["mcp__server", "mcp__server__tool"]).mapped =
      ["mcp__server", "mcp__server__tool"] := by
  decide

/-- C3 (evaluation at the failing input): with the header marker requested,
normalizing `"Use AskUserQuestion"` prepends a marker that itself contains
`AskUserQuestion`, and a second run rewrites that marker — `normalize` is
not idempotent. -/
theorem claim3_marker_not_idempotent :
    (normalizeText "Use AskUserQuestion" ⟨none, none, "command", some true⟩).text =
      "<!-- Factory Import Normalizer (command): removed AskUserQuestion -->\n\nAsk the user" ∧
    (normalizeText
        "<!-- Factory Import Normalizer (command): removed AskUserQuestion -->\n\nAsk the user"
        ⟨none, none, "command", some true⟩).text =
      "<!-- Factory Import Normalizer (command): removed ask the user -->\n\nAsk the user" ∧
    (normalizeText
        ((normalizeText "Use AskUserQuestion" ⟨none, none, "command", some true⟩).text)
        ⟨none, none, "command", some true⟩).text ≠
      (normalizeText "Use AskUserQuestion" ⟨none, none, "command", some true⟩).text := by
  refine ⟨by decide, by decide, ?_⟩
  decide

/-- C5: a skill whose file set has no `SKILL.md`/`skill.mdx` (case-insensitively)
short-circuits to the single-issue, zero-score, incompatible result with every
other list empty, whatever the fetch would have produced. -/
theorem claim5_missing_main_file (files : List String) (fetched : Fetched SkillFM)
    (h : ∀ f ∈ files, strToLower f ≠ "skill.md" ∧ strToLower f ≠ "skill.mdx") :
    analyzeSkillFn files fetched = missingSkillResult ∧
    missingSkillResult = ⟨false, 0, ["Missing SKILL.md file"], [], [], [], [], []⟩ := by
  have hf : files.find?
      (fun f => strToLower f == "skill.md" || strToLower f == "skill.mdx") = none := by
    rw [List.find?_eq_none]
    intro f hfmem
    have := h f hfmem
    simp [this.1, this.2]
  rw [analyzeSkillFn.eq_def, hf]
  exact ⟨rfl, rfl⟩

/-- Witness for C5 at a concrete file set. -/
theorem claim5_witness :
    analyzeSkillFn ["README.md", "reference.md"] (.err "unused") = missingSkillResult :=
  (claim5_missing_main_file ["README.md", "reference.md"] (.err "unused") (by decide)).1

/-- C6: when the metadata block fails to parse, both command converters
return the original text unchanged. -/
theorem claim6_unparseable_returns_original (mdText : String) :
    convertCommandFn mdText .fail = mdText ∧ convertCommandV2Fn mdText .fail = mdText :=
  ⟨rfl, rfl⟩

/-- C7: a failed content fetch is contained as a data result: compatible
false, score 0, the single issue recording the message, everything else
empty; the analyzers are total functions, so nothing propagates. -/
theorem claim7_fetch_failure_contained (agentName msg : String) :
    analyzeAgentFn agentName (.err msg) = fetchFailResult msg ∧
    analyzeCommandFn (.err msg) = fetchFailResult msg ∧
    fetchFailResult msg =
      ⟨false, 0, ["Failed to fetch content: " ++ msg], [], [], [], [], []⟩ :=
  ⟨rfl, rfl, rfl⟩

/-- C8: normalizing a text with the line `agent reviewer --strict` and no
known-droids set rewrites the line to the Task-tool guidance naming
`reviewer`, marked "(if available)", keeps the rest of the line and the
surrounding lines verbatim, and reports `reviewer` as referenced and
unresolved. -/
theorem claim8_agent_line_scenario :
    (normalizeText "Before\nagent reviewer --strict\nAfter"
        ⟨none, none, "command", some false⟩).text =
      "Before\nUse Task tool with subagent_type `reviewer` (if available) --strict\nAfter" ∧
    (normalizeText "Before\nagent reviewer --strict\nAfter"
        ⟨none, none, "command", some false⟩).referencedDroids = ["reviewer"] ∧
    (normalizeText "Before\nagent reviewer --strict\nAfter"
        ⟨none, none, "command", some false⟩).unresolvedDroids = ["reviewer"] ∧
    (normalizeText "agent reviewer --strict"
        ⟨none, none, "command", some false⟩).text =
      "Use Task tool with subagent_type `reviewer` (if available) --strict" := by
  refine ⟨by decide, by decide, by decide, by decide⟩

/-- C1 (counterexample): an agent artifact whose token list is exactly
`["AskUserQuestion"]` is compatible with no issues and one warning, but the
token's presence adds two suggestions (the clarifying-question suggestion
and the generic `Consider removing or replacing` suggestion), not exactly
one as claimed. -/
theorem claim1_counterexample :
    (analyzeAgentFn "my-agent"
        (.ok false ⟨"my-agent", "does things", .arr ["AskUserQuestion"]⟩ "")).unmappedTools =
      ["AskUserQuestion"] ∧
    (analyzeAgentFn "my-agent"
        (.ok false ⟨"my-agent", "does things", .arr ["AskUserQuestion"]⟩ "")).issues = [] ∧
    (analyzeAgentFn "my-agent"
        (.ok false ⟨"my-agent", "does things", .arr ["AskUserQuestion"]⟩ "")).compatible = true ∧
    (analyzeAgentFn "my-agent"
        (.ok false ⟨"my-agent", "does things", .arr ["AskUserQuestion"]⟩ "")).warnings.length = 1 ∧
    (analyzeAgentFn "my-agent"
        (.ok false ⟨"my-agent", "does things", .arr []⟩ "")).warnings.length = 0 ∧
    (analyzeAgentFn "my-agent"
        (.ok false ⟨"my-agent", "does things", .arr []⟩ "")).suggestions.length = 0 ∧
    (analyzeAgentFn "my-agent"
        (.ok false ⟨"my-agent", "does things", .arr ["AskUserQuestion"]⟩ "")).suggestions =
      [askSuggMsg, "Consider removing or replacing: AskUserQuestion"] := by
  refine ⟨by decide, by decide, by decide, by decide, by decide, by decide, by decide⟩

/-- C2 (counterexample): the missing-main-file skill result has one issue
and no warnings but reports score 0, while the scoring formula would give
80 — the short-circuit results do not follow the formula. -/
theorem claim2_counterexample :
    (analyzeSkillFn ["README.md"] (.ok false ⟨"n", "d", .undef⟩ "")).issues.length = 1 ∧
    (analyzeSkillFn ["README.md"] (.ok false ⟨"n", "d", .undef⟩ "")).warnings.length = 0 ∧
    (analyzeSkillFn ["README.md"] (.ok false ⟨"n", "d", .undef⟩ "")).score = 0 ∧
    computeScore 1 0 = 80 ∧
    (analyzeSkillFn ["README.md"] (.ok false ⟨"n", "d", .undef⟩ "")).score ≠
      computeScore
        (analyzeSkillFn ["README.md"] (.ok false ⟨"n", "d", .undef⟩ "")).issues.length
        (analyzeSkillFn ["README.md"] (.ok false ⟨"n", "d", .undef⟩ "")).warnings.length := by
  refine ⟨by decide, by decide, by decide, by decide, by decide⟩

theorem joinMap_eq_nil {f : α → List β} {l : List α} (h : ∀ a ∈ l, f a = []) :
    joinMap f l = [] := by
  induction l with
  | nil => rfl
  | cons x xs ih =>
    rw [joinMap, h x (List.mem_cons_self x xs), List.nil_append]
    exact ih (fun a ha => h a (List.mem_cons_of_mem _ ha))

/-- A token the analyzer does not classify as unmapped contributes no issue,
no warning and no suggestion to the loop. -/
theorem tok_not_unmapped {t : String} (h : tokUnmappedB t = false) :
    tokIssues t = [] ∧ tokWarns t = [] ∧ tokSuggs t = [] := by
  rw [tokUnmappedB] at h
  cases hres : resolveTok t <;>
    rw [hres] at h <;>
    simp_all [tokIssues, tokWarns, tokSuggs, hres]

theorem tok_ask :
    resolveTok "AskUserQuestion" = .softUnmapped ∧
    tokIssues "AskUserQuestion" = [] ∧
    tokWarns "AskUserQuestion" = [askWarnMsg] ∧
    tokSuggs "AskUserQuestion" = [askSuggMsg] ∧
    tokServer "AskUserQuestion" = none ∧
    tokUnmappedB "AskUserQuestion" = true ∧
    tokMapContrib "AskUserQuestion" = [] := by
  have h : resolveTok "AskUserQuestion" = .softUnmapped := by decide
  exact ⟨h, by rw [tokIssues, h], by rw [tokWarns, h], by rw [tokSuggs, h],
    by rw [tokServer, h], by rw [tokUnmappedB, h], by rw [tokMapContrib, h]⟩

/-- The ToolAnalysis deltas when the only unmapped token is one occurrence
of AskUserQuestion. -/
theorem analyzeTools_soft_only (xs ys : List String)
    (hx : ∀ t ∈ xs, tokUnmappedB t = false) (hy : ∀ t ∈ ys, tokUnmappedB t = false) :
    (analyzeToolsFn (xs ++ "AskUserQuestion" :: ys)).issues =
      (analyzeToolsFn (xs ++ ys)).issues ∧
    (analyzeToolsFn (xs ++ "AskUserQuestion" :: ys)).warnings.length =
      (analyzeToolsFn (xs ++ ys)).warnings.length + 1 ∧
    (analyzeToolsFn (xs ++ "AskUserQuestion" :: ys)).suggestions.length =
      (analyzeToolsFn (xs ++ ys)).suggestions.length + 1 ∧
    (analyzeToolsFn (xs ++ "AskUserQuestion" :: ys)).unmapped = ["AskUserQuestion"] ∧
    (analyzeToolsFn (xs ++ ys)).unmapped = [] := by
  obtain ⟨hres, hi, hw, hs, hsrv, hu, -⟩ := tok_ask
  have hxi : joinMap tokIssues xs = [] :=
    joinMap_eq_nil (fun a ha => (tok_not_unmapped (hx a ha)).1)
  have hyi : joinMap tokIssues ys = [] :=
    joinMap_eq_nil (fun a ha => (tok_not_unmapped (hy a ha)).1)
  have hxw : joinMap tokWarns xs = [] :=
    joinMap_eq_nil (fun a ha => (tok_not_unmapped (hx a ha)).2.1)
  have hyw : joinMap tokWarns ys = [] :=
    joinMap_eq_nil (fun a ha => (tok_not_unmapped (hy a ha)).2.1)
  have hxs : joinMap tokSuggs xs = [] :=
    joinMap_eq_nil (fun a ha => (tok_not_unmapped (hx a ha)).2.2)
  have hys : joinMap tokSuggs ys = [] :=
    joinMap_eq_nil (fun a ha => (tok_not_unmapped (hy a ha)).2.2)
  have hmcps : mcpsOf (xs ++ "AskUserQuestion" :: ys) = mcpsOf (xs ++ ys) := by
    rw [mcpsOf, mcpsOf, List.filterMap_append, List.filterMap_append,
      List.filterMap_cons, hsrv]
  have hfx : xs.filter tokUnmappedB = [] :=
    List.filter_eq_nil_iff.mpr (fun a ha hpa => by rw [hx a ha] at hpa; cases hpa)
  have hfy : ys.filter tokUnmappedB = [] :=
    List.filter_eq_nil_iff.mpr (fun a ha hpa => by rw [hy a ha] at hpa; cases hpa)
  rw [analyzeToolsFn_char, analyzeToolsFn_char]
  refine ⟨?_, ?_, ?_, ?_, ?_⟩
  · simp [joinMap_append, joinMap, hxi, hyi, hi]
  · simp [joinMap_append, joinMap, hxw, hyw, hw, hmcps]
  · simp [joinMap_append, joinMap, hxs, hys, hs]
  · simp [List.filter_append, List.filter_cons, hfx, hfy, hu]
  · simp [List.filter_append, hfx, hfy]

/-! ### C9: the tool-mapping invariant under the faithful lookup -/

theorem mem_jsDedupFromV {x : JsArrVal} {acc xs : List JsArrVal} :
    x ∈ jsDedupFromV acc xs ↔ x ∈ acc ∨ x ∈ xs := by
  induction xs generalizing acc with
  | nil => simp [jsDedupFromV]
  | cons y ys ih =>
    by_cases hc : acc.contains y
    · have hy : y ∈ acc := by simpa using hc
      simp only [jsDedupFromV, hc, if_pos]
      rw [ih]
      constructor
      · rintro (h | h)
        · exact Or.inl h
        · exact Or.inr (List.mem_cons_of_mem _ h)
      · rintro (h | h)
        · exact Or.inl h
        · rcases List.mem_cons.mp h with rfl | h
          · exact Or.inl hy
          · exact Or.inr h
    · simp only [jsDedupFromV, hc, if_neg, Bool.false_eq_true, not_false_iff]
      rw [ih]
      simp only [List.mem_append, List.mem_singleton, List.mem_cons]
      tauto

theorem jsDedupFromV_nodup {acc xs : List JsArrVal} (h : acc.Nodup) :
    (jsDedupFromV acc xs).Nodup := by
  induction xs generalizing acc with
  | nil => exact h
  | cons y ys ih =>
    by_cases hc : acc.contains y
    · simp only [jsDedupFromV, hc, if_pos]
      exact ih h
    · simp only [jsDedupFromV, hc, if_neg, Bool.false_eq_true, not_false_iff]
      apply ih
      have hy : y ∉ acc := by simpa using hc
      simp [List.nodup_append, h, hy]

theorem jsDedupV_nodup (xs : List JsArrVal) : (jsDedupV xs).Nodup :=
  jsDedupFromV_nodup List.nodup_nil

theorem mem_jsDedupV {x : JsArrVal} {xs : List JsArrVal} :
    x ∈ jsDedupV xs ↔ x ∈ xs := by
  rw [jsDedupV, mem_jsDedupFromV]
  simp

theorem mapToolsJsFold_char (ts : List String) (acc : List JsArrVal) :
    ts.foldl mapToolsJsStep acc = acc ++ joinMap tokJsContrib ts := by
  induction ts generalizing acc with
  | nil => simp [joinMap]
  | cons t ts ih =>
    rw [List.foldl_cons, ih]
    have hstep : mapToolsJsStep acc t = acc ++ tokJsContrib t := by
      rw [mapToolsJsStep, tokJsContrib]
      by_cases h1 : t ∈ FACTORY_TOOLS
      · simp [h1]
      · cases h2 : mcpExec t with
        | some s => simp [h1, h2]
        | none =>
          by_cases h3 : isBashRestriction t
          · simp [h1, h2, h3]
          · cases h4 : TOOL_MAPPING_JS t <;> simp [h1, h2, h3, h4]
    rw [hstep]
    simp [joinMap]

theorem mapToolsForFactoryJS_char (ts : List String) :
    mapToolsForFactoryJS ts = jsDedupV (joinMap tokJsContrib ts) := by
  rw [mapToolsForFactoryJS, mapToolsJsFold_char]
  rfl

/-- When the faithful lookup yields a string, it is an own value of the
mapping literal. -/
theorem TOOL_MAPPING_JS_str {t m : String} (h : TOOL_MAPPING_JS t = JsProp.str m) :
    TOOL_MAPPING t = some (some m) := by
  unfold TOOL_MAPPING_JS at h
  cases hf : TOOL_MAPPING t with
  | none =>
    rw [hf] at h
    by_cases hk : t ∈ OBJECT_PROTOTYPE_KEYS <;> simp [hk] at h
  | some v =>
    rw [hf] at h
    cases v with
    | none => simp at h
    | some s => simp at h; rw [h]

/-- When the faithful lookup yields an inherited member, the token names an
`Object.prototype` property. -/
theorem TOOL_MAPPING_JS_proto {t k : String}
    (h : TOOL_MAPPING_JS t = JsProp.protoMember k) : t ∈ OBJECT_PROTOTYPE_KEYS := by
  unfold TOOL_MAPPING_JS at h
  cases hf : TOOL_MAPPING t with
  | none =>
    rw [hf] at h
    by_cases hk : t ∈ OBJECT_PROTOTYPE_KEYS
    · exact hk
    · simp [hk] at h
  | some v =>
    rw [hf] at h
    cases v <;> simp at h

/-- C9 (counterexample): the token "toString" is not an own key of the
mapping literal (`TOOL_MAPPING "toString" = none`), yet the real JS read
finds the truthy inherited `Object.prototype.toString`, so the push guard
passes and the inherited member — an entry that is neither a Factory tool
nor an MCP passthrough token, indeed not a string at all — survives into
the output instead of the token being silently dropped.  The own-property
model drops it, as the claim asserts of every unknown token. -/
theorem claim9_counterexample :
    mapToolsForFactoryJS ["toString"] = [JsArrVal.protoMember "toString"] ∧
    TOOL_MAPPING "toString" = none ∧
    TOOL_MAPPING_JS "toString" = JsProp.protoMember "toString" ∧
    mapToolsForFactory ["toString"] = [] := by
  refine ⟨by decide, by decide, by decide, by decide⟩

/-- C9 (amended): for every input token list none of whose entries names an
inherited `Object.prototype` property, every entry the converter-side tool
mapping emits is a string that is a valid Factory tool or a namespaced MCP
passthrough token, the emitted list is duplicate-free, and the null-mapped
source tokens (AskUserQuestion, NotebookEdit) never survive into it. -/
theorem claim9_amended (ts : List String)
    (h : ∀ t ∈ ts, t ∉ OBJECT_PROTOTYPE_KEYS) :
    (mapToolsForFactoryJS ts).Nodup ∧
    (∀ e ∈ mapToolsForFactoryJS ts,
      ∃ s, e = JsArrVal.str s ∧ (s ∈ FACTORY_TOOLS ∨ (mcpExec s).isSome = true)) ∧
    JsArrVal.str "AskUserQuestion" ∉ mapToolsForFactoryJS ts ∧
    JsArrVal.str "NotebookEdit" ∉ mapToolsForFactoryJS ts := by
  have hmem : ∀ e ∈ mapToolsForFactoryJS ts,
      ∃ s, e = JsArrVal.str s ∧ (s ∈ FACTORY_TOOLS ∨ (mcpExec s).isSome = true) := by
    intro e he
    rw [mapToolsForFactoryJS_char, mem_jsDedupV, mem_joinMap] at he
    obtain ⟨t, ht, het⟩ := he
    rw [tokJsContrib] at het
    by_cases h1 : t ∈ FACTORY_TOOLS
    · simp [h1] at het
      exact ⟨t, het, Or.inl h1⟩
    · cases h2 : mcpExec t with
      | some s =>
        simp [h1, h2] at het
        exact ⟨t, het, Or.inr (by rw [h2]; rfl)⟩
      | none =>
        by_cases h3 : isBashRestriction t
        · simp [h1, h2, h3] at het
          exact ⟨"Execute", het, Or.inl (by decide)⟩
        · cases h4 : TOOL_MAPPING_JS t with
          | str m =>
            simp [h1, h2, h3, h4] at het
            exact ⟨m, het, Or.inl (toolMapping_range (TOOL_MAPPING_JS_str h4))⟩
          | protoMember k => exact absurd (TOOL_MAPPING_JS_proto h4) (h t ht)
          | nullVal => simp [h1, h2, h3, h4] at het
          | undefinedV => simp [h1, h2, h3, h4] at het
  refine ⟨?_, hmem, ?_, ?_⟩
  · rw [mapToolsForFactoryJS_char]
    exact jsDedupV_nodup _
  · intro hin
    obtain ⟨s, hs, hor⟩ := hmem _ hin
    injection hs with hs'
    subst hs'
    rcases hor with hA | hA
    · exact absurd hA (by decide)
    · exact absurd hA (by decide)
  · intro hin
    obtain ⟨s, hs, hor⟩ := hmem _ hin
    injection hs with hs'
    subst hs'
    rcases hor with hA | hA
    · exact absurd hA (by decide)
    · exact absurd hA (by decide)

theorem claim9_witness :
    (mapToolsForFactoryJS
        ["Bash", "WebFetch", "AskUserQuestion", "SomeUnknownTool", "mcp__db"]).Nodup ∧
    JsArrVal.str "AskUserQuestion" ∉
      mapToolsForFactoryJS
        ["Bash", "WebFetch", "AskUserQuestion", "SomeUnknownTool", "mcp__db"] := by
  have h := claim9_amended
    ["Bash", "WebFetch", "AskUserQuestion", "SomeUnknownTool", "mcp__db"] (by decide)
  exact ⟨h.1, h.2.2.1⟩

/-! ### C10 support -/

theorem factory_no_mcp : ∀ t ∈ FACTORY_TOOLS, mcpExec t = none := by decide

theorem insStr_ne_nil {acc : List String} {x : String} (h : acc ≠ []) :
    insStr acc x ≠ [] := by
  rw [insStr]
  split
  · exact h
  · simp

theorem foldl_insStr_ne_nil {xs acc : List String} (h : acc ≠ []) :
    xs.foldl insStr acc ≠ [] := by
  induction xs generalizing acc with
  | nil => exact h
  | cons x xs ih => exact ih (insStr_ne_nil h)

theorem mcpsOf_ne_nil {ts : List String} (h : ∃ t ∈ ts, (mcpExec t).isSome = true) :
    mcpsOf ts ≠ [] := by
  obtain ⟨t, ht, hsome⟩ := h
  obtain ⟨s, hs⟩ := Option.isSome_iff_exists.mp hsome
  have hnf : t ∉ FACTORY_TOOLS := by
    intro hmem
    rw [factory_no_mcp t hmem] at hs
    cases hs
  have hres : resolveTok t = .mcp s := by
    simp [resolveTok, hnf, hs]
  have hsrv : tokServer t = some s := by rw [tokServer, hres]
  have hmem : s ∈ ts.filterMap tokServer := List.mem_filterMap.mpr ⟨t, ht, hsrv⟩
  rcases hfm : ts.filterMap tokServer with _ | ⟨y, ys⟩
  · rw [hfm] at hmem; cases hmem
  · rw [mcpsOf, hfm, List.foldl_cons]
    apply foldl_insStr_ne_nil
    rw [show insStr [] y = [y] from by rw [insStr]; simp]
    simp

theorem askWarn_ne_reqMcps (ms : List String) : askWarnMsg ≠ reqMcpsMsg ms := by
  intro h
  have h2 := congrArg (fun s : String => s.data.head?) h
  simp only [askWarnMsg, reqMcpsMsg] at h2
  have hl : (askWarnMsg.data.head?) = some 'A' := rfl
  have hr : ((reqMcpsMsg ms).data.head?) = some 'R' := rfl
  rw [askWarnMsg] at hl
  rw [reqMcpsMsg] at hr
  rw [hl, hr] at h2
  cases h2

theorem joinMap_tokWarns_all_ask (ts : List String) :
    ∀ w ∈ joinMap tokWarns ts, w = askWarnMsg := by
  intro w hw
  obtain ⟨t, -, hwt⟩ := mem_joinMap.mp hw
  rw [tokWarns] at hwt
  cases hres : resolveTok t <;> rw [hres] at hwt <;> simp_all

theorem computeScore_le_95 {i w : Nat} (h : 1 ≤ w) : computeScore i w ≤ 95 := by
  rw [computeScore, max_def, min_def]
  have : (1 : Int) ≤ (w : Int) := by exact_mod_cast h
  split_ifs <;> omega

/-- C10: a token list with at least one MCP passthrough token gets exactly
one extra advisory warning, appended after the per-token warnings and
listing the recorded servers; through the command analyzer that warning
caps the score at 95. -/
theorem claim10_mcp_warning (ts : List String) (h : ∃ t ∈ ts, (mcpExec t).isSome = true) :
    (analyzeToolsFn ts).warnings =
      joinMap tokWarns ts ++ [reqMcpsMsg (analyzeToolsFn ts).requiredMcps] ∧
    (∀ w ∈ joinMap tokWarns ts, w = askWarnMsg) ∧
    (analyzeToolsFn ts).warnings.count (reqMcpsMsg (analyzeToolsFn ts).requiredMcps) = 1 ∧
    (∀ (pw : Bool) (fm : CommandFM) (body : String),
      parseTools fm.allowedTools = ts → (analyzeCommandFn (.ok pw fm body)).score ≤ 95) := by
  have hne := mcpsOf_ne_nil h
  have hempty : (mcpsOf ts).isEmpty = false := by
    rcases hmc : mcpsOf ts with _ | ⟨y, ys⟩
    · exact absurd hmc hne
    · rfl
  have hreq : (analyzeToolsFn ts).requiredMcps = mcpsOf ts := by
    rw [analyzeToolsFn_char]
  have hwarn : (analyzeToolsFn ts).warnings =
      joinMap tokWarns ts ++ [reqMcpsMsg (mcpsOf ts)] := by
    rw [analyzeToolsFn_char]
    simp [hempty]
  have hcount : (analyzeToolsFn ts).warnings.count
      (reqMcpsMsg (analyzeToolsFn ts).requiredMcps) = 1 := by
    rw [hwarn, hreq, List.count_append]
    have h0 : (joinMap tokWarns ts).count (reqMcpsMsg (mcpsOf ts)) = 0 := by
      rw [List.count_eq_zero]
      intro hmem
      exact askWarn_ne_reqMcps (mcpsOf ts)
        ((joinMap_tokWarns_all_ask ts _ hmem).symm)
    rw [h0]
    simp
  refine ⟨by rw [hwarn, hreq], joinMap_tokWarns_all_ask ts, hcount, ?_⟩
  intro pw fm body hts
  have hw : (analyzeCommandFn (.ok pw fm body)).warnings =
      (if pw then [parseWarnMsg] else []) ++
        (analyzeToolsFn (parseTools fm.allowedTools)).warnings ++
        checkClaudeSpecificContent body ++ (checkLegacyRuntimeContent body).1 := rfl
  have hscore : (analyzeCommandFn (.ok pw fm body)).score =
      computeScore (analyzeCommandFn (.ok pw fm body)).issues.length
        (analyzeCommandFn (.ok pw fm body)).warnings.length := rfl
  rw [hscore]
  apply computeScore_le_95
  rw [hw, hts, hwarn]
  simp [List.length_append]
  omega

/-- Witness for C10 at a concrete token list. -/
theorem claim10_witness :
    (analyzeToolsFn ["mcp__db"]).warnings.count
        (reqMcpsMsg (analyzeToolsFn ["mcp__db"]).requiredMcps) = 1 ∧
    (analyzeCommandFn (.ok false ⟨.arr ["Read", "mcp__db"]⟩ "")).score ≤ 95 := by
  constructor
  · exact (claim10_mcp_warning ["mcp__db"] ⟨"mcp__db", by decide, by decide⟩).2.2.1
  · exact (claim10_mcp_warning ["Read", "mcp__db"]
      ⟨"mcp__db", by decide, by decide⟩).2.2.2 false ⟨.arr ["Read", "mcp__db"]⟩ "" rfl

/-- C2 (amended): every analysis that reaches the scoring step (an
artifact whose content was fetched and, for skills, whose main file
exists) reports exactly `max 0 (min 100 (100 - 20*i - 5*w))`; that value
is monotonically non-increasing in `i` and `w`, always in `[0, 100]`, and
100 exactly at zero findings.  The short-circuit results (fetch failure,
missing skill main file) report score 0 instead of the formula. -/
theorem claim2_amended :
    (∀ (ag : String) (pw : Bool) (fm : AgentFM) (body : String),
      (analyzeAgentFn ag (.ok pw fm body)).score =
        computeScore (analyzeAgentFn ag (.ok pw fm body)).issues.length
          (analyzeAgentFn ag (.ok pw fm body)).warnings.length) ∧
    (∀ (pw : Bool) (fm : CommandFM) (body : String),
      (analyzeCommandFn (.ok pw fm body)).score =
        computeScore (analyzeCommandFn (.ok pw fm body)).issues.length
          (analyzeCommandFn (.ok pw fm body)).warnings.length) ∧
    (∀ (files : List String) (pw : Bool) (fm : SkillFM) (body : String),
      (files.find? (fun f => strToLower f == "skill.md" || strToLower f == "skill.mdx")).isSome →
      (analyzeSkillFn files (.ok pw fm body)).score =
        computeScore (analyzeSkillFn files (.ok pw fm body)).issues.length
          (analyzeSkillFn files (.ok pw fm body)).warnings.length) ∧
    (∀ i j w v : Nat, i ≤ j → w ≤ v → computeScore j v ≤ computeScore i w) ∧
    (∀ i w : Nat, 0 ≤ computeScore i w ∧ computeScore i w ≤ 100) ∧
    computeScore 0 0 = 100 ∧
    (∀ (ag msg : String), (analyzeAgentFn ag (.err msg)).score = 0) ∧
    (∀ (files : List String) (fetched : Fetched SkillFM),
      (files.find? (fun f => strToLower f == "skill.md" || strToLower f == "skill.mdx")) = none →
      (analyzeSkillFn files fetched).score = 0) := by
  refine ⟨fun ag pw fm body => rfl, fun pw fm body => rfl, ?_, ?_, ?_, by decide,
    fun ag msg => rfl, ?_⟩
  · intro files pw fm body hsome
    obtain ⟨f, hf⟩ := Option.isSome_iff_exists.mp hsome
    rw [analyzeSkillFn.eq_def, hf]
  · intro i j w v hij hwv
    rw [computeScore, computeScore, max_def, max_def, min_def, min_def]
    have h1 : (i : Int) ≤ (j : Int) := by exact_mod_cast hij
    have h2 : (w : Int) ≤ (v : Int) := by exact_mod_cast hwv
    split_ifs <;> omega
  · intro i w
    rw [computeScore, max_def, min_def]
    constructor <;> (split_ifs <;> omega)
  · intro files fetched hnone
    rw [analyzeSkillFn.eq_def, hnone]
    rfl

/-- C1 (amended): for every artifact whose declared token list has exactly
one occurrence of AskUserQuestion and no other unmapped token, analysis
still reports compatible = true; relative to the same artifact with the
token removed, the issues are unchanged and exactly one warning is added;
exactly one suggestion is added by command and skill analysis, while agent
analysis adds two (the clarifying-question suggestion plus the generic
removal suggestion fired by any nonempty unmapped list). -/
theorem claim1_amended (ag nm ds body : String) (pw : Bool) (ts : List String)
    (hcount : ts.count "AskUserQuestion" = 1)
    (honly : ∀ t ∈ ts, tokUnmappedB t = true → t = "AskUserQuestion") :
    ((analyzeAgentFn ag (.ok pw ⟨nm, ds, .arr ts⟩ body)).compatible = true ∧
     (analyzeCommandFn (.ok pw ⟨.arr ts⟩ body)).compatible = true ∧
     (analyzeSkillFn ["SKILL.md"] (.ok pw ⟨nm, ds, .arr ts⟩ body)).compatible = true) ∧
    ((analyzeAgentFn ag (.ok pw ⟨nm, ds, .arr ts⟩ body)).issues =
       (analyzeAgentFn ag (.ok pw ⟨nm, ds, .arr (ts.erase "AskUserQuestion")⟩ body)).issues ∧
     (analyzeCommandFn (.ok pw ⟨.arr ts⟩ body)).issues =
       (analyzeCommandFn (.ok pw ⟨.arr (ts.erase "AskUserQuestion")⟩ body)).issues ∧
     (analyzeSkillFn ["SKILL.md"] (.ok pw ⟨nm, ds, .arr ts⟩ body)).issues =
       (analyzeSkillFn ["SKILL.md"]
         (.ok pw ⟨nm, ds, .arr (ts.erase "AskUserQuestion")⟩ body)).issues) ∧
    ((analyzeAgentFn ag (.ok pw ⟨nm, ds, .arr ts⟩ body)).warnings.length =
       (analyzeAgentFn ag
         (.ok pw ⟨nm, ds, .arr (ts.erase "AskUserQuestion")⟩ body)).warnings.length + 1 ∧
     (analyzeCommandFn (.ok pw ⟨.arr ts⟩ body)).warnings.length =
       (analyzeCommandFn (.ok pw ⟨.arr (ts.erase "AskUserQuestion")⟩ body)).warnings.length + 1 ∧
     (analyzeSkillFn ["SKILL.md"] (.ok pw ⟨nm, ds, .arr ts⟩ body)).warnings.length =
       (analyzeSkillFn ["SKILL.md"]
         (.ok pw ⟨nm, ds, .arr (ts.erase "AskUserQuestion")⟩ body)).warnings.length + 1) ∧
    ((analyzeCommandFn (.ok pw ⟨.arr ts⟩ body)).suggestions.length =
       (analyzeCommandFn (.ok pw ⟨.arr (ts.erase "AskUserQuestion")⟩ body)).suggestions.length
         + 1 ∧
     (analyzeSkillFn ["SKILL.md"] (.ok pw ⟨nm, ds, .arr ts⟩ body)).suggestions.length =
       (analyzeSkillFn ["SKILL.md"]
         (.ok pw ⟨nm, ds, .arr (ts.erase "AskUserQuestion")⟩ body)).suggestions.length + 1 ∧
     (analyzeAgentFn ag (.ok pw ⟨nm, ds, .arr ts⟩ body)).suggestions.length =
       (analyzeAgentFn ag
         (.ok pw ⟨nm, ds, .arr (ts.erase "AskUserQuestion")⟩ body)).suggestions.length + 2) := by
  have hmem : "AskUserQuestion" ∈ ts := List.count_pos_iff.mp (by omega)
  obtain ⟨xs, zs, rfl⟩ := List.append_of_mem hmem
  rw [List.count_append, List.count_cons_self] at hcount
  have hxa : "AskUserQuestion" ∉ xs := List.count_eq_zero.mp (by omega)
  have hza : "AskUserQuestion" ∉ zs := List.count_eq_zero.mp (by omega)
  have herase : (xs ++ "AskUserQuestion" :: zs).erase "AskUserQuestion" = xs ++ zs := by
    rw [List.erase_append_right _ hxa, List.erase_cons_head]
  have hx : ∀ t ∈ xs, tokUnmappedB t = false := by
    intro t ht
    rcases hb : tokUnmappedB t with _ | _
    · rfl
    · exact absurd (honly t (List.mem_append_left _ ht) hb ▸ ht) hxa
  have hy : ∀ t ∈ zs, tokUnmappedB t = false := by
    intro t ht
    rcases hb : tokUnmappedB t with _ | _
    · rfl
    · exact absurd
        (honly t (List.mem_append_right _ (List.mem_cons_of_mem _ ht)) hb ▸ ht) hza
  obtain ⟨hI, hW, hS, hU, hU'⟩ := analyzeTools_soft_only xs zs hx hy
  rw [herase]
  have hta : ∀ (M : List String),
      (if M.isEmpty then (⟨[], [], [], [], [], []⟩ : ToolAnalysis)
       else analyzeToolsFn M) = analyzeToolsFn M := by
    intro M
    rcases M with _ | ⟨m, ms⟩ <;> rfl
  -- the analyzers' fields in terms of the tool analysis
  have hAi : ∀ (M : List String),
      (analyzeAgentFn ag (.ok pw ⟨nm, ds, .arr M⟩ body)).issues =
        (if (if nm ≠ "" then nm else ag) = "" then [missingNameMsg] else []) ++
          (analyzeToolsFn M).issues := fun M => rfl
  have hAw : ∀ (M : List String),
      (analyzeAgentFn ag (.ok pw ⟨nm, ds, .arr M⟩ body)).warnings =
        ((if pw then [parseWarnMsg] else []) ++
          (if (if nm ≠ "" then nm else ag) = "" then []
           else if nameRegexOk (if nm ≠ "" then nm else ag) then []
           else [nameFormatWarnMsg]) ++
          (analyzeToolsFn M).warnings ++ checkClaudeSpecificContent body ++
          (checkLegacyRuntimeContent body).1) ++
          (if ds = "" then [missingDescMsg] else []) := fun M => rfl
  have hAs : ∀ (M : List String),
      (analyzeAgentFn ag (.ok pw ⟨nm, ds, .arr M⟩ body)).suggestions =
        ((analyzeToolsFn M).suggestions ++
          (if (analyzeToolsFn M).unmapped.isEmpty then []
           else [considerRemovingMsg (analyzeToolsFn M).unmapped])) ++
          (checkLegacyRuntimeContent body).2 := fun M => rfl
  have hAc : ∀ (M : List String),
      (analyzeAgentFn ag (.ok pw ⟨nm, ds, .arr M⟩ body)).compatible =
        ((analyzeToolsFn M).unmapped.filter (fun t => t ≠ "AskUserQuestion")).isEmpty :=
    fun M => rfl
  have hCi : ∀ (M : List String),
      (analyzeCommandFn (.ok pw ⟨.arr M⟩ body)).issues = (analyzeToolsFn M).issues :=
    fun M => rfl
  have hCw : ∀ (M : List String),
      (analyzeCommandFn (.ok pw ⟨.arr M⟩ body)).warnings =
        (if pw then [parseWarnMsg] else []) ++ (analyzeToolsFn M).warnings ++
          checkClaudeSpecificContent body ++ (checkLegacyRuntimeContent body).1 :=
    fun M => rfl
  have hCs : ∀ (M : List String),
      (analyzeCommandFn (.ok pw ⟨.arr M⟩ body)).suggestions =
        (analyzeToolsFn M).suggestions ++ (checkLegacyRuntimeContent body).2 :=
    fun M => rfl
  have hCc : ∀ (M : List String),
      (analyzeCommandFn (.ok pw ⟨.arr M⟩ body)).compatible =
        ((analyzeToolsFn M).unmapped.filter (fun t => t ≠ "AskUserQuestion")).isEmpty :=
    fun M => rfl
  have hSi : ∀ (M : List String),
      (analyzeSkillFn ["SKILL.md"] (.ok pw ⟨nm, ds, .arr M⟩ body)).issues =
        (if nm = "" then [missingNameMsg] else []) ++
          (if M.isEmpty then (⟨[], [], [], [], [], []⟩ : ToolAnalysis)
           else analyzeToolsFn M).issues := fun M => rfl
  have hSw : ∀ (M : List String),
      (analyzeSkillFn ["SKILL.md"] (.ok pw ⟨nm, ds, .arr M⟩ body)).warnings =
        ((if pw then [parseWarnMsg] else []) ++
          (if ds = "" then [missingDescMsg] else []) ++
          (if M.isEmpty then (⟨[], [], [], [], [], []⟩ : ToolAnalysis)
           else analyzeToolsFn M).warnings ++ checkClaudeSpecificContent body ++
          (checkLegacyRuntimeContent body).1) := fun M => rfl
  have hSs : ∀ (M : List String),
      (analyzeSkillFn ["SKILL.md"] (.ok pw ⟨nm, ds, .arr M⟩ body)).suggestions =
        (if M.isEmpty then (⟨[], [], [], [], [], []⟩ : ToolAnalysis)
         else analyzeToolsFn M).suggestions ++ (checkLegacyRuntimeContent body).2 :=
    fun M => rfl
  have hSc : ∀ (M : List String),
      (analyzeSkillFn ["SKILL.md"] (.ok pw ⟨nm, ds, .arr M⟩ body)).compatible =
        ((if M.isEmpty then (⟨[], [], [], [], [], []⟩ : ToolAnalysis)
          else analyzeToolsFn M).unmapped.filter (fun t => t ≠ "AskUserQuestion")).isEmpty :=
    fun M => rfl
  refine ⟨⟨?_, ?_, ?_⟩, ⟨?_, ?_, ?_⟩, ⟨?_, ?_, ?_⟩, ⟨?_, ?_, ?_⟩⟩
  · rw [hAc, hU]; decide
  · rw [hCc, hU]; decide
  · rw [hSc, hta, hU]; decide
  · rw [hAi, hAi, hI]
  · rw [hCi, hCi, hI]
  · rw [hSi, hSi, hta, hta, hI]
  · rw [hAw, hAw]
    simp only [List.length_append, hW]
    omega
  · rw [hCw, hCw]
    simp only [List.length_append, hW]
    omega
  · rw [hSw, hSw, hta, hta]
    simp only [List.length_append, hW]
    omega
  · rw [hCs, hCs]
    simp only [List.length_append, hS]
    omega
  · rw [hSs, hSs, hta, hta]
    simp only [List.length_append, hS]
    omega
  · rw [hAs, hAs, hU, hU']
    simp [List.length_append, hS]
    omega

/-- Witness for C1 (amended) at a concrete token list. -/
theorem claim1_witness :
    (analyzeAgentFn "rev" (.ok false ⟨"rev", "d", .arr ["Read", "AskUserQuestion"]⟩ "")).compatible
      = true ∧
    (analyzeAgentFn "rev"
        (.ok false ⟨"rev", "d", .arr ["Read", "AskUserQuestion"]⟩ "")).suggestions.length =
      (analyzeAgentFn "rev"
        (.ok false ⟨"rev", "d",
          .arr (["Read", "AskUserQuestion"].erase "AskUserQuestion")⟩ "")).suggestions.length
        + 2 := by
  have h := claim1_amended "rev" "rev" "d" "" false ["Read", "AskUserQuestion"]
    (by decide) (by decide)
  exact ⟨h.1.1, h.2.2.2.2.2⟩
